import Mathlib

/-!
Verification development for the luapy Lua 5.1 bytecode VM.

Shallow embedding of the repository's data model and operations:
* `Value` embeds the tagged value of src/lua_value.py / src/lua_types.py
  (Python `int` as ℤ, Python `float` as ℚ — all float arithmetic reached by
  the verified claims is exact on small decimals, so ℚ models it exactly);
* `Table` embeds the hybrid array+hash table of src/lua_types.py, with the
  Python dict modeled as a first-occurrence association list;
* the arithmetic/comparison core embeds `CheckNumber`, `CompareCheck` and
  `ArithOperator.solve/arith/compare` of src/main.py;
* `Reader`/`Header.read` embed the chunk header decoding of
  src/lua_header.py (the byte reader itself, src lua_io.py, is absent from
  the sources and is modeled from the spec);
* a small heap-based VM state embeds the call-frame operations `precall`,
  `pycall` and the `TAILCALL`/`CLOSE` handlers of src/main.py, with Python
  object identity modeled by heap ids.

Python exceptions are modeled by `Except PyErr`.
-/

/-- Python exception kinds raised by the embedded code paths. -/
inductive PyErr
  | valueError
  | typeError
  | indexError
  | attributeError
  | eofError
deriving DecidableEq, Repr

instance {ε α : Type} [DecidableEq ε] [DecidableEq α] : DecidableEq (Except ε α) :=
  fun x y =>
    match x, y with
    | .ok a, .ok b =>
      if h : a = b then isTrue (by rw [h])
      else isFalse (by intro hh; cases hh; exact h rfl)
    | .error a, .error b =>
      if h : a = b then isTrue (by rw [h])
      else isFalse (by intro hh; cases hh; exact h rfl)
    | .ok _, .error _ => isFalse (by intro hh; cases hh)
    | .error _, .ok _ => isFalse (by intro hh; cases hh)

/-- The tagged Lua value of src/lua_value.py (`Value.value` payload):
Python `None`/`bool`/`int`/`float`/`str` plus table and closure references
(references modeled by heap ids, matching Python object identity). -/
inductive Value
  | nil
  | boolean (b : Bool)
  | int (z : ℤ)
  | flt (q : ℚ)
  | str (s : String)
  | table (id : ℕ)
  | func (id : ℕ)
deriving DecidableEq, Repr

/-- `Value.is_nil` (src/lua_value.py): the payload is Python `None`. -/
def Value.is_nil : Value → Bool
  | .nil => true
  | _ => false

/-- `Value.is_boolean` (src/lua_value.py): `type(self.value) is bool`. -/
def Value.is_boolean : Value → Bool
  | .boolean _ => true
  | _ => false

/-- `Value.is_number` (src/lua_value.py): `type(self.value) in (int, float)`
(Python `bool` is excluded by the `is`-style check used in the source). -/
def Value.is_number : Value → Bool
  | .int _ => true
  | .flt _ => true
  | _ => false

/-- `Value.is_string` (src/lua_value.py). -/
def Value.is_string : Value → Bool
  | .str _ => true
  | _ => false

/-- `Value.is_table` (src/lua_value.py). -/
def Value.is_table : Value → Bool
  | .table _ => true
  | _ => false

/-- `Value.is_function` (src/lua_value.py): LClosure or PClosure payload. -/
def Value.is_function : Value → Bool
  | .func _ => true
  | _ => false

/-- `Value.conv_float_to_int` (src/lua_value.py): a float payload with an
exact integer value is replaced by the integer. -/
def Value.conv_float_to_int : Value → Value
  | .flt q => if q.den = 1 then .int q.num else .flt q
  | v => v

/-- `Value.get_integer` (src/lua_value.py): an `int` payload, or a `float`
payload with integral value, as an integer; `None` otherwise. -/
def Value.get_integer : Value → Option ℤ
  | .int z => some z
  | .flt q => if q.den = 1 then some q.num else none
  | _ => none

/-- One step of decimal digit scanning: accumulated value, count of digits
consumed, and the remaining characters. -/
def readDigitsAux : List Char → ℕ → ℕ → ℕ × ℕ × List Char
  | [], acc, n => (acc, n, [])
  | c :: cs, acc, n =>
    if c.isDigit then readDigitsAux cs (acc * 10 + (c.toNat - 48)) (n + 1)
    else (acc, n, c :: cs)

/-- Modelled from the spec (§4.4 string→number conversion; the Python
builtin `float` used by the source is not itself in the sources): parses a
plain decimal literal with optional sign and optional fractional part.
Exponents, `inf`/`nan`, underscores and surrounding whitespace are outside
the profile exercised by the verified claims.  `none` models the
`ValueError` raise of Python `float` on a non-numeric string. -/
def pyFloat (s : String) : Option ℚ :=
  let cs := s.toList
  let signAndRest : ℚ × List Char :=
    match cs with
    | '-' :: r => (-1, r)
    | '+' :: r => (1, r)
    | _ => (1, cs)
  let sign := signAndRest.1
  let body := signAndRest.2
  let ipScan := readDigitsAux body 0 0
  let ip := ipScan.1
  let ni := ipScan.2.1
  match ipScan.2.2 with
  | [] => if ni = 0 then none else some (sign * ip)
  | '.' :: r =>
    let fpScan := readDigitsAux r 0 0
    let fp := fpScan.1
    let nf := fpScan.2.1
    if fpScan.2.2 = [] ∧ 0 < ni + nf then
      some (sign * ((ip : ℚ) + (fp : ℚ) / (10 : ℚ) ^ nf))
    else none
  | _ => none

/-- `Value.conv_str_to_number` (src/lua_value.py): a string payload is
converted with Python `float` (raising ValueError on failure) and then
canonicalized with `conv_float_to_int`; other payloads are unchanged. -/
def Value.conv_str_to_number : Value → Except PyErr Value
  | .str s =>
    match pyFloat s with
    | some q => .ok ((Value.flt q).conv_float_to_int)
    | none => .error .valueError
  | v => .ok v

/-- `CheckNumber.check` (src/main.py lines 11-17): converts a numeric string
in place and reports whether the (converted) value is a number.  The
possibly converted value is returned alongside, mirroring the in-place
mutation of the source. -/
def CheckNumber.check (v : Value) : Except PyErr (Bool × Value) :=
  match v.conv_str_to_number with
  | .ok v' => .ok (v'.is_number, v')
  | .error e => .error e

/-- `CheckNumber.checks` (src/main.py lines 19-20): Python `and`
short-circuits, so the second operand is only converted when the first one
checks as a number. -/
def CheckNumber.checks (va vb : Value) : Except PyErr (Bool × Value × Value) :=
  match CheckNumber.check va with
  | .error e => .error e
  | .ok ra =>
    if ra.1 then
      match CheckNumber.check vb with
      | .error e => .error e
      | .ok rb => .ok (rb.1, ra.2, rb.2)
    else
      .ok (false, ra.2, vb)

/-- `CompareCheck.checks` (src/main.py lines 22-29): true only when both
operands are numbers or both are strings; no conversion, no exception. -/
def CompareCheck.checks (va vb : Value) : Except PyErr (Bool × Value × Value) :=
  .ok ((va.is_number && vb.is_number) || (va.is_string && vb.is_string), va, vb)

/-! ## Table (src/lua_types.py lines 315-363) -/

/-- Key of the Python dict `Table._map`: the source stores raw Python ints
(for integer-convertible keys) and `Value` objects (for all other keys);
the two kinds never compare equal in a lookup. -/
inductive TKey
  | kint (z : ℤ)
  | kval (v : Value)
deriving DecidableEq, Repr

/-- Python dict lookup (`_map.get(key, None)`), first matching entry. -/
def mapGet : List (TKey × Value) → TKey → Option Value
  | [], _ => none
  | (k', v) :: r, k => if k' = k then some v else mapGet r k

/-- Python dict assignment (`_map[key] = value`): replace the first entry
with this key, else append (dict insertion order). -/
def mapSet : List (TKey × Value) → TKey → Value → List (TKey × Value)
  | [], k, v => [(k, v)]
  | (k', v') :: r, k, v =>
    if k' = k then (k', v) :: r else (k', v') :: mapSet r k v

/-- Python dict deletion (`del _map[key]`): remove the first entry with
this key (the source only deletes keys it has just tested for presence). -/
def mapDel : List (TKey × Value) → TKey → List (TKey × Value)
  | [], _ => []
  | (k', v') :: r, k => if k' = k then r else (k', v') :: mapDel r k

/-- `key in self._map`. -/
def mapHas (m : List (TKey × Value)) (k : TKey) : Bool :=
  (mapGet m k).isSome

/-- The hybrid array+hash table of src/lua_types.py: `_list` is the array
part, `_map` the hash part. -/
structure Table where
  list : List Value
  map : List (TKey × Value)
deriving DecidableEq, Repr

/-- `Table.__init__`: both parts empty. -/
def Table.empty : Table := ⟨[], []⟩

/-- The `int | Value` key parameter of `Table.get`/`Table.set`. -/
inductive PyKey
  | pint (z : ℤ)
  | pval (v : Value)
deriving DecidableEq, Repr

/-- `int_key = key.get_integer() if type(key) is Value else key`
(src/lua_types.py lines 324 and 332). -/
def PyKey.intKey : PyKey → Option ℤ
  | .pint z => some z
  | .pval v => v.get_integer

/-- `Table.get` (src/lua_types.py lines 323-329): integer-convertible keys
consult the array part when in range 1..len, else the hash part under the
raw integer; other keys consult the hash part under the `Value`. -/
def Table.get (t : Table) (key : PyKey) : Option Value :=
  match key.intKey with
  | some ik =>
    if 1 ≤ ik ∧ ik ≤ (t.list.length : ℤ) then t.list.get? (ik - 1).toNat
    else mapGet t.map (.kint ik)
  | none =>
    match key with
    | .pval v => mapGet t.map (.kval v)
    | .pint _ => none

/-- `Table._shrink_list` (src/lua_types.py lines 354-357): demote the array
entries above `key` into the hash part and truncate the array at `key-1`. -/
def insertSeq (m : List (TKey × Value)) (start : ℤ) : List Value → List (TKey × Value)
  | [] => m
  | v :: r => insertSeq (mapSet m (.kint start) v) (start + 1) r

/-- `Table._shrink_list` (src/lua_types.py lines 354-357). -/
def Table.shrinkList (t : Table) (key : ℤ) : Table :=
  { list := t.list.take (key - 1).toNat
    map := insertSeq t.map (key + 1) (t.list.drop key.toNat) }

theorem mapDel_length_of_get {m : List (TKey × Value)} {k : TKey} {v : Value}
    (h : mapGet m k = some v) : (mapDel m k).length < m.length := by
  induction m with
  | nil => simp [mapGet] at h
  | cons hd tl ih =>
    by_cases hk : hd.1 = k
    · simp [mapDel, hk]
    · simp only [mapGet, hk, if_false] at h
      simp only [mapDel, hk, if_false, List.length_cons]
      exact Nat.succ_lt_succ (ih h)

/-- `Table._expand_list` (src/lua_types.py lines 359-363): while the hash
part holds key `len(list)+1`, promote it into the array part. -/
def expandCore (l : List Value) (m : List (TKey × Value)) :
    List Value × List (TKey × Value) :=
  match h : mapGet m (.kint ((l.length : ℤ) + 1)) with
  | some v => expandCore (l ++ [v]) (mapDel m (.kint ((l.length : ℤ) + 1)))
  | none => (l, m)
termination_by m.length
decreasing_by exact mapDel_length_of_get h

/-- `Table.set` (src/lua_types.py lines 331-349). -/
def Table.set (t : Table) (key : PyKey) (value : Value) : Table :=
  match key.intKey with
  | some ik =>
    if value.is_nil then
      if 1 ≤ ik ∧ ik ≤ (t.list.length : ℤ) then t.shrinkList ik else t
    else
      if ik = (t.list.length : ℤ) + 1 then
        let ex := expandCore (t.list ++ [value]) t.map
        { list := ex.1, map := ex.2 }
      else if 1 ≤ ik ∧ ik ≤ (t.list.length : ℤ) then
        { t with list := t.list.set (ik - 1).toNat value }
      else
        { t with map := mapSet t.map (.kint ik) value }
  | none =>
    match key with
    | .pval v =>
      if value.is_nil then
        if mapHas t.map (.kval v) then { t with map := mapDel t.map (.kval v) } else t
      else
        { t with map := mapSet t.map (.kval v) value }
    | .pint _ => t

/-- `Table.len` (src/lua_types.py lines 351-352). -/
def Table.len (t : Table) : ℕ := t.list.length

/-- A finite sequence of `set` operations applied to a fresh table. -/
def applyOps (ops : List (PyKey × Value)) : Table :=
  ops.foldl (fun t kv => t.set kv.1 kv.2) Table.empty

/-! ## Arithmetic / comparison core (src/main.py lines 11-90, 283-299) -/

/-- Python list read `l[i]` for a non-negative index: IndexError when out
of range. -/
def getIdx (l : List Value) (i : ℕ) : Except PyErr Value :=
  match l.get? i with
  | some v => .ok v
  | none => .error .indexError

/-- Python list write `l[i] = v` for a non-negative index: IndexError when
out of range. -/
def setIdx (l : List Value) (i : ℕ) (v : Value) : Except PyErr (List Value) :=
  if i < l.length then .ok (l.set i v) else .error .indexError

/-- Python list read `l[z]` for a possibly negative index, with Python's
wrap-around for `-len ≤ z < 0`. -/
def getIdxZ (l : List Value) (z : ℤ) : Except PyErr Value :=
  if 0 ≤ z then getIdx l z.toNat
  else if -(l.length : ℤ) ≤ z then getIdx l (z + l.length).toNat
  else .error .indexError

/-- `LuaState._get_rk` (src/main.py lines 659-666): an operand ≥ 256 is the
constant at index rk−256, otherwise the register at index rk. -/
def luaGetRK (stack consts : List Value) (rk : ℕ) : Except PyErr Value :=
  if rk ≥ 256 then getIdx consts (rk - 256) else getIdx stack rk

/-- `Value.get_metatable` (src/lua_value.py lines 103-106): a table's
metatable from its (spec-modeled) metatable link, `None` for every other
value.  `tmeta` assigns to each table id its optional metatable; the table
side of the link lives in the absent lua_table.py and is modeled from the
spec sentence "A table has an optional reference to another table acting
as its metatable". -/
def get_metatable (tmeta : ℕ → Option Table) : Value → Option Table
  | .table id => tmeta id
  | _ => none

/-- The result of `ArithOperator.solve` (src/main.py line 41-63): a `Value`
or Python `False`. -/
inductive SolveRes
  | val (v : Value)
  | fls
deriving DecidableEq, Repr

/-- The metamethod lookup of `ArithOperator.solve` for the two-operand
branch (src/main.py lines 57-62): the first operand's metatable, else the
second's; then the metamethod under `metaName`, kept only when present and
a function. -/
def metaLookup (tmeta : ℕ → Option Table) (metaName : String) (va vb : Value) :
    Option Value :=
  let mt := match get_metatable tmeta va with
    | some m => some m
    | none => get_metatable tmeta vb
  match mt with
  | some m =>
    match m.get (.pval (.str metaName)) with
    | some mf => if mf.is_function then some mf else none
    | none => none
  | none => none

/-- The two-operand branch of `ArithOperator.solve` (src/main.py lines
52-63), over already-resolved operand values.  `checks` is the check
object's `checks` method (CheckNumber or CompareCheck; it returns the
possibly converted operands, mirroring the in-place conversion), `op` the
payload lambda wrapped in the `Value(value=...)` canonicalization, and
`luacall` the `L._luacall` metamethod invocation. -/
def solveBin (checks : Value → Value → Except PyErr (Bool × Value × Value))
    (op : Value → Value → Except PyErr Value) (metaName : String)
    (tmeta : ℕ → Option Table)
    (luacall : Value → Value → Value → Except PyErr Value)
    (va vb : Value) : Except PyErr SolveRes :=
  match checks va vb with
  | .error e => .error e
  | .ok r =>
    if r.1 then
      match op r.2.1 r.2.2 with
      | .error e => .error e
      | .ok w => .ok (SolveRes.val w.conv_float_to_int)
    else
      match metaLookup tmeta metaName va vb with
      | some mf =>
        match luacall mf r.2.1 r.2.2 with
        | .error e => .error e
        | .ok w => .ok (SolveRes.val w)
      | none => .ok SolveRes.fls

/-- `ArithOperator.arith` (src/main.py lines 65-68) together with the RK
resolution at the top of `solve`: compute `solve` on `RK[a]`, `RK[b]` and
store the result at register `idx` when it is a `Value` (a `Value` object
is always truthy in Python); on Python `False` the store is skipped. -/
def arithStep (checks : Value → Value → Except PyErr (Bool × Value × Value))
    (op : Value → Value → Except PyErr Value) (metaName : String)
    (tmeta : ℕ → Option Table)
    (luacall : Value → Value → Value → Except PyErr Value)
    (stack consts : List Value) (idx a b : ℕ) : Except PyErr (List Value) :=
  match luaGetRK stack consts a with
  | .error e => .error e
  | .ok va =>
    match luaGetRK stack consts b with
    | .error e => .error e
    | .ok vb =>
      match solveBin checks op metaName tmeta luacall va vb with
      | .error e => .error e
      | .ok (.val v) => setIdx stack idx v
      | .ok .fls => .ok stack

/-- `ArithOperator.compare` (src/main.py lines 70-74): the boolean payload
of a boolean `Value` result of `solve`; `False` in every other case. -/
def compareStep (checks : Value → Value → Except PyErr (Bool × Value × Value))
    (op : Value → Value → Except PyErr Value) (metaName : String)
    (tmeta : ℕ → Option Table)
    (luacall : Value → Value → Value → Except PyErr Value)
    (stack consts : List Value) (a b : ℕ) : Except PyErr Bool :=
  match luaGetRK stack consts a with
  | .error e => .error e
  | .ok va =>
    match luaGetRK stack consts b with
    | .error e => .error e
    | .ok vb =>
      match solveBin checks op metaName tmeta luacall va vb with
      | .error e => .error e
      | .ok (.val (.boolean bb)) => .ok bb
      | .ok _ => .ok false

/-- Python `==` on the payloads of two values (`lambda a, b: a == b` of
`ARITH["EQ"]`, src/main.py line 87): numbers compare by mathematical
value across int/float, booleans with numbers by their 0/1 value, other
types structurally (tables and closures by identity, i.e. by heap id). -/
def pyEqBool : Value → Value → Bool
  | .int x, .int y => x = y
  | .int x, .flt y => (x : ℚ) = y
  | .flt x, .int y => x = (y : ℚ)
  | .flt x, .flt y => x = y
  | .int x, .boolean y => x = (cond y 1 0 : ℤ)
  | .boolean x, .int y => (cond x 1 0 : ℤ) = y
  | .flt x, .boolean y => x = (cond y 1 0 : ℚ)
  | .boolean x, .flt y => (cond x 1 0 : ℚ) = y
  | .str x, .str y => x = y
  | .nil, .nil => true
  | .boolean x, .boolean y => x = y
  | .table i, .table j => i = j
  | .func i, .func j => i = j
  | _, _ => false

/-- The `ARITH["EQ"]` payload op wrapped as a `Value`-producing function. -/
def pyEqOp (a b : Value) : Except PyErr Value := .ok (.boolean (pyEqBool a b))

/-- Python `a + b` on payloads (`ARITH["ADD"]`, src/main.py line 78):
int+int is int, any float makes a float, str+str concatenates; the
remaining payload pairs raise TypeError in Python (they are unreachable
behind `CheckNumber`). -/
def pyAddOp : Value → Value → Except PyErr Value
  | .int x, .int y => .ok (.int (x + y))
  | .int x, .flt y => .ok (.flt ((x : ℚ) + y))
  | .flt x, .int y => .ok (.flt (x + (y : ℚ)))
  | .flt x, .flt y => .ok (.flt (x + y))
  | .str x, .str y => .ok (.str (x ++ y))
  | _, _ => .error .typeError

/-- Python `a * b` on payloads (`ARITH["MUL"]`, src/main.py line 80) for
the numeric pairs reachable behind `CheckNumber`; other pairs modeled as
the Python TypeError of unsupported operand types. -/
def pyMulOp : Value → Value → Except PyErr Value
  | .int x, .int y => .ok (.int (x * y))
  | .int x, .flt y => .ok (.flt ((x : ℚ) * y))
  | .flt x, .int y => .ok (.flt (x * (y : ℚ)))
  | .flt x, .flt y => .ok (.flt (x * y))
  | _, _ => .error .typeError

/-- `Operator.EQ` (src/main.py lines 283-287): compute
`ARITH["EQ"].compare` on RK[b], RK[c]; when the boolean result differs
from `a != 0`, `state.jump(1)` increments the frame's pc.  The function
returns the frame pc after the handler, given the pc before it. -/
def opEQ (tmeta : ℕ → Option Table)
    (luacall : Value → Value → Value → Except PyErr Value)
    (stack consts : List Value) (pc : ℤ) (a b c : ℕ) : Except PyErr ℤ :=
  match compareStep CompareCheck.checks pyEqOp "__eq" tmeta luacall stack consts b c with
  | .error e => .error e
  | .ok r => if r ≠ decide (a ≠ 0) then .ok (pc + 1) else .ok pc

/-- Raw EQ comparison as the code actually computes it: the Python `==` of
the payloads when both operands are numbers or both strings, false for
every other pair (in the absence of an `__eq` metamethod). -/
def rawEqSpec (va vb : Value) : Bool :=
  if (va.is_number && vb.is_number) || (va.is_string && vb.is_string) then
    pyEqBool va vb
  else false

/-! ## Chunk header (src/lua_header.py lines 6-28, identical in
src/lua_types.py lines 9-31) -/

/-- Modelled from the spec: the Binary Reader (src lua_io.py is absent
from the sources).  Spec §4.1: wraps a byte source; "read exactly N bytes
(fail with UnexpectedEof if short)"; `read_uint8` reads one unsigned
byte. -/
structure Reader where
  bytes : List ℕ
  pos : ℕ
deriving DecidableEq, Repr

/-- Modelled from the spec (§4.1): read exactly `n` bytes, failing with
UnexpectedEof when fewer remain. -/
def Reader.read_bytes (r : Reader) (n : ℕ) : Except PyErr (List ℕ × Reader) :=
  if r.pos + n ≤ r.bytes.length then
    .ok ((r.bytes.drop r.pos).take n, { r with pos := r.pos + n })
  else .error .eofError

/-- Modelled from the spec (§4.1): read one unsigned 8-bit integer. -/
def Reader.read_uint8 (r : Reader) : Except PyErr (ℕ × Reader) :=
  match r.read_bytes 1 with
  | .error e => .error e
  | .ok br =>
    match br.1 with
    | [b] => .ok (b, br.2)
    | _ => .error .eofError

/-- The parsed header record of src/lua_header.py. -/
structure Header where
  signature : List ℕ
  version : ℕ
  format : ℕ
  endianness : ℕ
  int_len : ℕ
  size_len : ℕ
  inst_len : ℕ
  number_len : ℕ
  number_is_int : Bool
deriving DecidableEq, Repr

/-- The 4-byte chunk signature `b'\x1bLua'`. -/
def luaSig : List ℕ := [0x1b, 0x4c, 0x75, 0x61]

/-- `Header.__init__` (src/lua_header.py lines 17-28): read and check the
4-byte signature (ValueError on mismatch), then read the eight profile
bytes and store them without any validation. -/
def Header.read (r : Reader) : Except PyErr (Header × Reader) :=
  match r.read_bytes 4 with
  | .error e => .error e
  | .ok sg =>
    if sg.1 ≠ luaSig then .error .valueError
    else
      match sg.2.read_uint8 with
      | .error e => .error e
      | .ok b1 =>
        match b1.2.read_uint8 with
        | .error e => .error e
        | .ok b2 =>
          match b2.2.read_uint8 with
          | .error e => .error e
          | .ok b3 =>
            match b3.2.read_uint8 with
            | .error e => .error e
            | .ok b4 =>
              match b4.2.read_uint8 with
              | .error e => .error e
              | .ok b5 =>
                match b5.2.read_uint8 with
                | .error e => .error e
                | .ok b6 =>
                  match b6.2.read_uint8 with
                  | .error e => .error e
                  | .ok b7 =>
                    match b7.2.read_uint8 with
                    | .error e => .error e
                    | .ok b8 =>
                      .ok ({ signature := sg.1
                             version := b1.1
                             format := b2.1
                             endianness := b3.1
                             int_len := b4.1
                             size_len := b5.1
                             inst_len := b6.1
                             number_len := b7.1
                             number_is_int := b8.1 ≠ 0 }, b8.2)

/-! ## Native calls: `LuaState.pycall` (src/main.py lines 602-616) -/

/-- The argument-gathering loop of `pycall`
(`for i in range(args_count): closure.stack.append(self.stack[func_idx+1+i])`),
with `i` the running index and the second ℕ the remaining count. -/
def readArgsAux (cs : List Value) (func_idx : ℕ) : ℕ → ℕ → Except PyErr (List Value)
  | _, 0 => .ok []
  | i, n + 1 =>
    match getIdx cs (func_idx + 1 + i) with
    | .error e => .error e
    | .ok v =>
      match readArgsAux cs func_idx (i + 1) n with
      | .error e => .error e
      | .ok r => .ok (v :: r)

/-- The return-transfer loop of `pycall`
(`for i in range(nrets): self.stack[func_idx+i] = ...`): `pystack` is the
native frame's final stack, `ret_start = len(pystack) - ret_count`.  The
running index is `i`, the last ℕ the remaining iteration count. -/
def writeRetsAux (func_idx : ℕ) (pystack : List Value) (ret_start : ℤ)
    (ret_count : ℕ) : List Value → ℕ → ℕ → Except PyErr (List Value)
  | cs, _, 0 => .ok cs
  | cs, i, n + 1 =>
    match (if (i : ℤ) < (ret_count : ℤ) then getIdxZ pystack (ret_start + i)
           else .ok Value.nil) with
    | .error e => .error e
    | .ok rv =>
      match setIdx cs (func_idx + i) rv with
      | .error e => .error e
      | .ok cs' => writeRetsAux func_idx pystack ret_start ret_count cs' (i + 1) n

/-- `LuaState.pycall` (src/main.py lines 602-616), restricted to its effect
on the caller's register stack: gather `args_count` arguments into the
native frame, run the host callable (modeled by `native`, mapping the
argument vector to the frame stack it leaves and the return count it
reports), then run the transfer loop `for i in range(nrets)` — for a
negative `nrets` (C == 0 at the call site) Python's `range` is empty.  The
push/pop of the PClosure frame on `call_info` has no effect on the
caller's stack and is omitted here (the frame stack itself is modeled in
the VM-state section). -/
def pycall (callerStack : List Value) (func_idx : ℕ) (args_count : ℕ)
    (nrets : ℤ) (native : List Value → List Value × ℕ) :
    Except PyErr (List Value) :=
  match readArgsAux callerStack func_idx 0 args_count with
  | .error e => .error e
  | .ok args =>
    let res := native args
    let pystack := res.1
    let ret_count := res.2
    let ret_start : ℤ := (pystack.length : ℤ) - (ret_count : ℤ)
    writeRetsAux func_idx pystack ret_start ret_count callerStack 0 nrets.toNat

/-! ## Call frames (src/main.py lines 326-360, 476-600; src/lua_types.py
lines 458-497).  Python object identity is modeled by heap ids: `call_info`
is a list of closure ids, `heap` maps each id to the closure object's
current state.  The `LuaState.stack` / `LuaState.func` aliases of the top
frame's register list and prototype are carried verbatim as fields. -/

/-- The prototype fields used by the call protocol (`Proto`,
src/lua_types.py lines 404-428); code/constants and the decoder are not
needed by the frame-level claims. -/
structure Proto where
  maxstacksize : ℕ
  numparams : ℕ
deriving DecidableEq, Repr

/-- The mutable state of an `LClosure` object (src/lua_types.py lines
462-476): one register stack, one pc, one vararg buffer, and the
call-return bookkeeping `nrets` / `ret_idx`. -/
structure LClosureData where
  stack : List Value
  upvalues : List Value
  varargs : List Value
  func : Proto
  nrets : ℤ
  ret_idx : ℕ
  pc : ℤ
deriving Repr

/-- A function object on the heap: a Lua closure with its mutable state,
or a native closure (`PClosure`) identified by its callable. -/
inductive FuncObj
  | lua (c : LClosureData)
  | py (pyid : ℕ)

/-- The parts of `LuaState` (src/main.py lines 476-494) the frame claims
touch: the closure heap, the `call_info` frame stack (as ids), and the
`stack` / `func` aliases of the top frame. -/
structure VMState where
  heap : ℕ → FuncObj
  call_info : List ℕ
  stack : List Value
  funcProto : Proto

/-- The argument-distribution loop shared by `precall` (src/main.py lines
591-596) and the TAILCALL handler (lines 346-351): argument `i` goes to
register `i` when `i < numparams`, else is appended to the vararg buffer.
Reads come from the caller stack at `a + 1 + i`; `i` is the running index,
the following ℕ the remaining count. -/
def distArgs (callerStack : List Value) (a : ℕ) (numparams : ℕ) :
    ℕ → ℕ → List Value → List Value → Except PyErr (List Value × List Value)
  | _, 0, st, va => .ok (st, va)
  | i, n + 1, st, va =>
    match getIdx callerStack (a + 1 + i) with
    | .error e => .error e
    | .ok value =>
      if i < numparams then
        match setIdx st i value with
        | .error e => .error e
        | .ok st' => distArgs callerStack a numparams (i + 1) n st' va
      else
        distArgs callerStack a numparams (i + 1) n st (va ++ [value])

/-- `state.call_info[-1]`, raising IndexError on an empty list. -/
def lastFrameId (s : VMState) : Except PyErr ℕ :=
  match s.call_info.getLast? with
  | some cid => .ok cid
  | none => .error .indexError

/-- Reading an LClosure-only attribute off a heap object: a PClosure has
no `nrets`/`ret_idx`/`pc`, so Python would raise AttributeError. -/
def asLua : FuncObj → Except PyErr LClosureData
  | .lua c => .ok c
  | .py _ => .error .attributeError

/-- `LuaState.precall` (src/main.py lines 587-600): reassign, on the
closure object itself, a fresh Nil-filled register stack of
`maxstacksize` slots, pc 0 and an empty vararg buffer; distribute the
arguments; record `nrets` and `ret_idx := func_idx`; then `push_closure`
appends the frame and repoints the `stack`/`func` aliases at it. -/
def precall (s : VMState) (cid : ℕ) (func_idx : ℕ) (nargs : ℕ) (nrets : ℤ) :
    Except PyErr VMState :=
  match asLua (s.heap cid) with
  | .error e => .error e
  | .ok c =>
    let fresh := List.replicate c.func.maxstacksize Value.nil
    match distArgs s.stack func_idx c.func.numparams 0 nargs fresh [] with
    | .error e => .error e
    | .ok r =>
      let c' : LClosureData :=
        { c with stack := r.1, pc := 0, varargs := r.2, nrets := nrets, ret_idx := func_idx }
      .ok { heap := fun i => if i = cid then .lua c' else s.heap i
            call_info := s.call_info ++ [cid]
            stack := c'.stack
            funcProto := c'.func }

/-- `Operator.TAILCALL` (src/main.py lines 326-360).  The Lua-closure
branch is embedded in full: reset the target closure's stack/pc/varargs,
distribute the arguments, copy `nrets` and `ret_idx` from the frame being
replaced, and overwrite `call_info[-1]` in place.  The native branch
delegates to `pycall`, whose caller-stack effect is embedded separately;
here it is supplied as the parameter `pyBranch` (receiving the state, the
function slot and the argument count). -/
def opTAILCALL (pyBranch : VMState → ℕ → ℕ → Except PyErr VMState)
    (s : VMState) (a b : ℕ) : Except PyErr VMState :=
  match getIdx s.stack a with
  | .error e => .error e
  | .ok func_value =>
    if ¬ func_value.is_function then .error .typeError
    else
      let nargs := if b > 0 then b - 1 else s.stack.length - a - 1
      match func_value with
      | .func fid =>
        match s.heap fid with
        | .lua tgt =>
          (match lastFrameId s with
           | .error e => .error e
           | .ok curId =>
             match asLua (s.heap curId) with
             | .error e => .error e
             | .ok cur =>
               let fresh := List.replicate tgt.func.maxstacksize Value.nil
               match distArgs s.stack a tgt.func.numparams 0 nargs fresh [] with
               | .error e => .error e
               | .ok r =>
                 let c' : LClosureData :=
                   { tgt with stack := r.1, pc := 0, varargs := r.2
                              nrets := cur.nrets, ret_idx := cur.ret_idx }
                 .ok { heap := fun i => if i = fid then .lua c' else s.heap i
                       call_info := s.call_info.dropLast ++ [fid]
                       stack := c'.stack
                       funcProto := c'.func })
        | .py _ => pyBranch s a nargs
      | _ => .error .typeError

/-- `Operator.CLOSE` (src/main.py lines 444-448): the handler body is
`pass` — upvalue closing is, per the source comment, "not implemented
yet", so the state is returned unchanged. -/
def opCLOSE (a : ℕ) (s : VMState) : VMState := s

/-! ## Table invariants (claim C9 support) -/

theorem mapGet_mapSet_self (m : List (TKey × Value)) (k : TKey) (v : Value) :
    mapGet (mapSet m k v) k = some v := by
  induction m with
  | nil => simp [mapSet, mapGet]
  | cons hd tl ih =>
    by_cases hk : hd.1 = k
    · simp [mapSet, mapGet, hk]
    · simp [mapSet, mapGet, hk, ih]

theorem mapGet_mapSet_ne (m : List (TKey × Value)) {k k' : TKey} (v : Value)
    (h : k' ≠ k) : mapGet (mapSet m k v) k' = mapGet m k' := by
  have h' : ¬ k = k' := fun hh => h hh.symm
  induction m with
  | nil => simp [mapSet, mapGet, h']
  | cons hd tl ih =>
    by_cases hk : hd.1 = k
    · subst hk
      simp [mapSet, mapGet, h']
    · simp [mapSet, mapGet, hk, ih]

theorem mapGet_mapDel_ne (m : List (TKey × Value)) {k k' : TKey}
    (h : k' ≠ k) : mapGet (mapDel m k) k' = mapGet m k' := by
  have h' : ¬ k = k' := fun hh => h hh.symm
  induction m with
  | nil => simp [mapDel]
  | cons hd tl ih =>
    by_cases hk : hd.1 = k
    · subst hk
      simp [mapDel, mapGet, h']
    · simp [mapDel, mapGet, hk, ih]

/-- The keys of a dict model are pairwise distinct (true of a Python dict;
preserved by all the source's map operations). -/
def MapNodup (m : List (TKey × Value)) : Prop := (m.map Prod.fst).Nodup

theorem mapGet_eq_none_of_not_mem (m : List (TKey × Value)) (k : TKey)
    (h : k ∉ m.map Prod.fst) : mapGet m k = none := by
  induction m with
  | nil => simp [mapGet]
  | cons hd tl ih =>
    simp only [List.map_cons, List.mem_cons, not_or] at h
    have h1 : ¬ hd.1 = k := fun hh => h.1 hh.symm
    simp [mapGet, h1, ih h.2]

theorem mapDel_sublist (m : List (TKey × Value)) (k : TKey) :
    (mapDel m k).Sublist m := by
  induction m with
  | nil => simp [mapDel]
  | cons hd tl ih =>
    by_cases hk : hd.1 = k
    · simpa [mapDel, hk] using (List.sublist_cons_self hd tl)
    · simpa [mapDel, hk] using List.Sublist.cons₂ hd ih

theorem mapDel_nodup {m : List (TKey × Value)} (k : TKey) (h : MapNodup m) :
    MapNodup (mapDel m k) :=
  ((mapDel_sublist m k).map Prod.fst).nodup h

theorem mapGet_mapDel_self {m : List (TKey × Value)} (k : TKey)
    (h : MapNodup m) : mapGet (mapDel m k) k = none := by
  induction m with
  | nil => simp [mapDel, mapGet]
  | cons hd tl ih =>
    simp only [MapNodup, List.map_cons, List.nodup_cons] at h
    by_cases hk : hd.1 = k
    · subst hk
      simpa [mapDel] using mapGet_eq_none_of_not_mem tl hd.1 h.1
    · simp [mapDel, hk, mapGet, ih h.2]

theorem mapSet_keys_subset (m : List (TKey × Value)) (k : TKey) (v : Value) :
    ∀ x ∈ (mapSet m k v).map Prod.fst, x ∈ m.map Prod.fst ∨ x = k := by
  induction m with
  | nil => simp [mapSet]
  | cons hd tl ih =>
    by_cases hk : hd.1 = k
    · intro x hx
      simp only [mapSet, hk, if_true, List.map_cons, List.mem_cons] at hx
      rcases hx with hx | hx
      · exact Or.inr hx
      · exact Or.inl (by rw [List.map_cons]; exact List.mem_cons.mpr (Or.inr hx))
    · intro x hx
      simp only [mapSet, hk, if_false, List.map_cons, List.mem_cons] at hx
      rcases hx with hx | hx
      · exact Or.inl (by simp [hx])
      · rcases ih x hx with h1 | h1
        · exact Or.inl (by simp [h1])
        · exact Or.inr h1

theorem mapSet_nodup {m : List (TKey × Value)} (k : TKey) (v : Value)
    (h : MapNodup m) : MapNodup (mapSet m k v) := by
  induction m with
  | nil => simp [MapNodup, mapSet]
  | cons hd tl ih =>
    simp only [MapNodup, List.map_cons, List.nodup_cons] at h
    by_cases hk : hd.1 = k
    · simpa [MapNodup, mapSet, hk] using h
    · have htl := ih h.2
      simp only [MapNodup, mapSet, hk, if_false, List.map_cons, List.nodup_cons]
      refine ⟨?_, htl⟩
      intro hmem
      rcases mapSet_keys_subset tl k v hd.1 hmem with h1 | h1
      · exact h.1 h1
      · exact hk h1

theorem insertSeq_nodup (vs : List Value) :
    ∀ (m : List (TKey × Value)) (s : ℤ), MapNodup m → MapNodup (insertSeq m s vs) := by
  induction vs with
  | nil => intro m s h; simpa [insertSeq] using h
  | cons v0 r ih =>
    intro m s h
    exact ih (mapSet m (.kint s) v0) (s + 1) (mapSet_nodup _ _ h)

theorem insertSeq_get_cases (vs : List Value) :
    ∀ (m : List (TKey × Value)) (s : ℤ) (k : TKey) (v : Value),
      mapGet (insertSeq m s vs) k = some v →
      mapGet m k = some v ∨
        ∃ i, i < vs.length ∧ k = TKey.kint (s + (i : ℤ)) ∧ vs.get? i = some v := by
  induction vs with
  | nil => intro m s k v h; exact Or.inl h
  | cons v0 r ih =>
    intro m s k v h
    rcases ih (mapSet m (.kint s) v0) (s + 1) k v h with h1 | ⟨i, hi, hk, hg⟩
    · by_cases hks : k = TKey.kint s
      · subst hks
        rw [mapGet_mapSet_self] at h1
        refine Or.inr ⟨0, by simp, by simp, ?_⟩
        simpa using h1
      · rw [mapGet_mapSet_ne _ _ hks] at h1
        exact Or.inl h1
    · refine Or.inr ⟨i + 1, by simpa using Nat.succ_lt_succ hi, ?_, by simpa using hg⟩
      rw [hk]
      congr 1
      push_cast
      ring

/-- Integer keys of the hash part are below 1 or at least `bound`. -/
def MapIntBound (m : List (TKey × Value)) (bound : ℤ) : Prop :=
  ∀ z v, mapGet m (.kint z) = some v → z ≤ 0 ∨ bound ≤ z

/-- Values in the hash part are never Nil. -/
def MapValsOk (m : List (TKey × Value)) : Prop :=
  ∀ k v, mapGet m k = some v → v ≠ Value.nil

/-- The table invariant maintained by `Table.set`: the array part holds no
Nil, integer keys in the hash part lie outside 1..len+1, hash values are
non-Nil, and the dict keys are pairwise distinct. -/
def TableInv (t : Table) : Prop :=
  (∀ v ∈ t.list, v ≠ Value.nil) ∧
  MapIntBound t.map ((t.list.length : ℤ) + 2) ∧
  MapValsOk t.map ∧ MapNodup t.map

theorem expandCore_eq_some {l : List Value} {m : List (TKey × Value)} {v : Value}
    (h : mapGet m (.kint ((l.length : ℤ) + 1)) = some v) :
    expandCore l m = expandCore (l ++ [v]) (mapDel m (.kint ((l.length : ℤ) + 1))) := by
  rw [expandCore]
  split
  · rename_i v' h'
    rw [h] at h'
    cases h'
    rfl
  · rename_i h'
    rw [h] at h'
    cases h'

theorem expandCore_eq_none {l : List Value} {m : List (TKey × Value)}
    (h : mapGet m (.kint ((l.length : ℤ) + 1)) = none) :
    expandCore l m = (l, m) := by
  rw [expandCore]
  split
  · rename_i v' h'
    rw [h] at h'
    cases h'
  · rfl

theorem expandCore_spec (l : List Value) (m : List (TKey × Value))
    (hl : ∀ v ∈ l, v ≠ Value.nil)
    (hb : ∀ z v, mapGet m (.kint z) = some v → z ≤ 0 ∨ (l.length : ℤ) + 1 ≤ z)
    (hv : MapValsOk m) (hn : MapNodup m) :
    (∀ v ∈ (expandCore l m).1, v ≠ Value.nil) ∧
    MapIntBound (expandCore l m).2 (((expandCore l m).1.length : ℤ) + 2) ∧
    MapValsOk (expandCore l m).2 ∧ MapNodup (expandCore l m).2 := by
  induction l, m using expandCore.induct with
  | case1 l m v h ih =>
    rw [expandCore_eq_some h]
    apply ih
    · intro w hw
      rcases List.mem_append.mp hw with hw | hw
      · exact hl w hw
      · simp only [List.mem_singleton] at hw
        subst hw
        exact hv _ _ h
    · intro z w hz
      by_cases hzk : TKey.kint z = TKey.kint ((l.length : ℤ) + 1)
      · rw [hzk, mapGet_mapDel_self _ hn] at hz
        cases hz
      · rw [mapGet_mapDel_ne _ hzk] at hz
        have hzne : z ≠ (l.length : ℤ) + 1 := fun hh => hzk (by rw [hh])
        rcases hb z w hz with h1 | h1
        · exact Or.inl h1
        · refine Or.inr ?_
          have : ((l ++ [v]).length : ℤ) = (l.length : ℤ) + 1 := by
            simp
          rw [this]
          omega
    · intro k w hk
      by_cases hzk : k = TKey.kint ((l.length : ℤ) + 1)
      · rw [hzk, mapGet_mapDel_self _ hn] at hk
        cases hk
      · rw [mapGet_mapDel_ne _ hzk] at hk
        exact hv _ _ hk
    · exact mapDel_nodup _ hn
  | case2 l m h =>
    rw [expandCore_eq_none h]
    dsimp only
    refine ⟨hl, ?_, hv, hn⟩
    intro z w hz
    rcases hb z w hz with h1 | h1
    · exact Or.inl h1
    · refine Or.inr ?_
      have hzne : z ≠ (l.length : ℤ) + 1 := by
        intro hh
        rw [hh, h] at hz
        cases hz
      omega

theorem ne_nil_of_not_is_nil {v : Value} (h : ¬ v.is_nil = true) : v ≠ Value.nil := by
  intro hv
  subst hv
  simp [Value.is_nil] at h

theorem shrink_inv (t : Table) (ik : ℤ) (h1 : 1 ≤ ik)
    (h2 : ik ≤ (t.list.length : ℤ)) (hl : ∀ v ∈ t.list, v ≠ Value.nil)
    (hb : MapIntBound t.map ((t.list.length : ℤ) + 2))
    (hv : MapValsOk t.map) (hn : MapNodup t.map) :
    TableInv (t.shrinkList ik) := by
  unfold Table.shrinkList TableInv
  have hlen : ((ik - 1).toNat : ℤ) = ik - 1 := Int.toNat_of_nonneg (by omega)
  have htake : (t.list.take (ik - 1).toNat).length = (ik - 1).toNat := by
    rw [List.length_take]
    apply Nat.min_eq_left
    omega
  refine ⟨?_, ?_, ?_, ?_⟩
  · intro w hw
    exact hl w ((List.take_sublist _ _).subset hw)
  · intro z w hz
    rcases insertSeq_get_cases _ _ _ _ _ hz with hold | ⟨i, hi, hk, hg⟩
    · rcases hb z w hold with h' | h'
      · exact Or.inl h'
      · right
        rw [htake]
        omega
    · right
      simp only [TKey.kint.injEq] at hk
      rw [htake]
      omega
  · intro k w hk2
    rcases insertSeq_get_cases _ _ _ _ _ hk2 with hold | ⟨i, hi, hk, hg⟩
    · exact hv _ _ hold
    · have hmem : w ∈ t.list.drop ik.toNat := List.get?_mem hg
      exact hl w ((List.drop_sublist _ _).subset hmem)
  · exact insertSeq_nodup _ _ _ hn

theorem tableSet_inv (t : Table) (k : PyKey) (v : Value) (h : TableInv t) :
    TableInv (t.set k v) := by
  obtain ⟨hl, hb, hv, hn⟩ := h
  unfold Table.set
  cases hik : k.intKey with
  | some ik =>
    simp only [hik]
    split_ifs with hnil hr hlen1 hr2
    · exact shrink_inv t ik hr.1 hr.2 hl hb hv hn
    · exact ⟨hl, hb, hv, hn⟩
    · -- append at len+1 then expand
      have hvne : v ≠ Value.nil := ne_nil_of_not_is_nil hnil
      have hspec := expandCore_spec (t.list ++ [v]) t.map ?_ ?_ hv hn
      · exact ⟨hspec.1, hspec.2.1, hspec.2.2.1, hspec.2.2.2⟩
      · intro w hw
        rcases List.mem_append.mp hw with hw | hw
        · exact hl w hw
        · simp only [List.mem_singleton] at hw
          subst hw
          exact hvne
      · intro z w hz
        rcases hb z w hz with h' | h'
        · exact Or.inl h'
        · right
          simp only [List.length_append, List.length_singleton]
          push_cast
          omega
    · -- in-range overwrite
      refine ⟨?_, ?_, hv, hn⟩
      · intro w hw
        rcases List.mem_or_eq_of_mem_set hw with hw | hw
        · exact hl w hw
        · subst hw
          exact ne_nil_of_not_is_nil hnil
      · intro z w hz
        have := hb z w hz
        simpa [List.length_set] using this
    · -- hash-part insert under a raw integer key
      refine ⟨hl, ?_, ?_, mapSet_nodup _ _ hn⟩
      · intro z w hz
        by_cases hzik : TKey.kint z = TKey.kint ik
        · simp only [TKey.kint.injEq] at hzik
          subst hzik
          dsimp only
          omega
        · rw [mapGet_mapSet_ne _ _ hzik] at hz
          exact hb z w hz
      · intro k0 w hk0
        by_cases hzik : k0 = TKey.kint ik
        · subst hzik
          rw [mapGet_mapSet_self] at hk0
          cases hk0
          exact ne_nil_of_not_is_nil hnil
        · rw [mapGet_mapSet_ne _ _ hzik] at hk0
          exact hv _ _ hk0
  | none =>
    cases k with
    | pint z => simp [PyKey.intKey] at hik
    | pval w =>
      simp only [hik]
      split_ifs with hnil hhas
      · -- delete the Value key
        refine ⟨hl, ?_, ?_, mapDel_nodup _ hn⟩
        · intro z w2 hz
          have hne : TKey.kint z ≠ TKey.kval w := by
            intro hh
            cases hh
          rw [mapGet_mapDel_ne _ hne] at hz
          exact hb z w2 hz
        · intro k0 w2 hk0
          by_cases hkk : k0 = TKey.kval w
          · subst hkk
            rw [mapGet_mapDel_self _ hn] at hk0
            cases hk0
          · rw [mapGet_mapDel_ne _ hkk] at hk0
            exact hv _ _ hk0
      · exact ⟨hl, hb, hv, hn⟩
      · -- insert under the Value key
        refine ⟨hl, ?_, ?_, mapSet_nodup _ _ hn⟩
        · intro z w2 hz
          have hne : TKey.kint z ≠ TKey.kval w := by
            intro hh
            cases hh
          rw [mapGet_mapSet_ne _ _ hne] at hz
          exact hb z w2 hz
        · intro k0 w2 hk0
          by_cases hkk : k0 = TKey.kval w
          · subst hkk
            rw [mapGet_mapSet_self] at hk0
            cases hk0
            exact ne_nil_of_not_is_nil hnil
          · rw [mapGet_mapSet_ne _ _ hkk] at hk0
            exact hv _ _ hk0

theorem tableInv_empty : TableInv Table.empty := by
  refine ⟨?_, ?_, ?_, ?_⟩ <;> simp [Table.empty, MapIntBound, MapValsOk, MapNodup, mapGet]

theorem tableInv_foldl (ops : List (PyKey × Value)) :
    ∀ t : Table, TableInv t →
      TableInv (ops.foldl (fun t kv => t.set kv.1 kv.2) t) := by
  induction ops with
  | nil => intro t h; exact h
  | cons hd tl ih =>
    intro t h
    exact ih _ (tableSet_inv t hd.1 hd.2 h)

theorem tableInv_applyOps (ops : List (PyKey × Value)) : TableInv (applyOps ops) :=
  tableInv_foldl ops Table.empty tableInv_empty

/-! ## Helper lemmas for the claim theorems -/

theorem conv_str_to_number_of_not_string {v : Value} (h : v.is_string = false) :
    v.conv_str_to_number = .ok v := by
  cases v <;> simp_all [Value.is_string, Value.conv_str_to_number]

theorem distArgs_length (cs : List Value) (a np : ℕ) :
    ∀ (n i : ℕ) (st va st2 va2 : List Value),
      distArgs cs a np i n st va = .ok (st2, va2) → st2.length = st.length := by
  intro n
  induction n with
  | zero =>
    intro i st va st2 va2 h
    simp only [distArgs] at h
    cases h
    rfl
  | succ n ih =>
    intro i st va st2 va2 h
    simp only [distArgs] at h
    cases hg : getIdx cs (a + 1 + i) with
    | error e => simp only [hg] at h; exact Except.noConfusion h
    | ok v =>
      simp only [hg] at h
      by_cases hp : i < np
      · simp only [hp, if_true] at h
        cases hs : setIdx st i v with
        | error e => simp only [hs] at h; exact Except.noConfusion h
        | ok st' =>
          simp only [hs] at h
          have h1 := ih (i + 1) st' va st2 va2 h
          have h2 : st'.length = st.length := by
            unfold setIdx at hs
            split at hs
            · cases hs
              exact List.length_set st i v
            · cases hs
          rw [h1, h2]
      · simp only [hp, if_false] at h
        exact ih (i + 1) st (va ++ [v]) st2 va2 h

theorem distArgs_zero (cs : List Value) (a np i : ℕ) (st va : List Value) :
    distArgs cs a np i 0 st va = .ok (st, va) := rfl

/-! ## Claim theorems -/

/-- Claim C1 (code_bug evidence): the CLOSE handler leaves the interpreter
state completely unchanged — for every operand A and every state, executing
CLOSE is the identity.  The claim says CLOSE turns every open upvalue for
stack slots ≥ A into a closed upvalue holding a copy of the current value;
the code's handler body is `pass` (src/main.py lines 444-448, with the
comment "Close upvalues not implemented yet"), and the codebase has no
open/closed upvalue representation at all. -/
theorem close_handler_is_identity : ∀ (a : ℕ) (s : VMState), opCLOSE a s = s :=
  fun _ _ => rfl

/-- Claim C2 (code_bug evidence): assigning Nil to integer key 2 of a table
whose key 2 lives in the hash part does not remove it — the subsequent get
still returns the old value 7, where the claim requires absence.  (In
`Table.set`, the Nil branch only handles `1 <= int_key <= len(self._list)`;
an integer key outside the array range falls through both the shrink branch
and the `elif key in self._map` branch, because `int_key is not None`.) -/
theorem set_nil_leaves_int_hash_key :
    ((Table.empty.set (.pint 2) (.int 7)).set (.pint 2) Value.nil).get (.pint 2)
      = some (Value.int 7) ∧
    Table.empty.set (.pint 2) (.int 7) = ⟨[], [(.kint 2, .int 7)]⟩ := by
  exact ⟨rfl, rfl⟩

/-- Claim C3 (counterexample): with both RK operands Nil and A = 1, the EQ
handler skips the next instruction (pc goes from 0 to 1) because the
computed comparison is `false` — the raw equality of two Nils is not
computed as equal, contradicting the claim that two Nils compare equal
without any metamethod.  (`CompareCheck.checks` only passes number/number
and string/string pairs; a Nil/Nil pair falls to the metamethod branch,
Nil has no metatable, and `solve` returns False.) -/
theorem eq_on_two_nils_skips :
    opEQ (fun _ => none) (fun _ _ _ => .ok Value.nil)
        [Value.nil, Value.nil] [] 0 1 0 1 = .ok 1 ∧
    compareStep CompareCheck.checks pyEqOp "__eq" (fun _ => none)
        (fun _ _ _ => .ok Value.nil) [Value.nil, Value.nil] [] 0 1 = .ok false := by
  exact ⟨rfl, rfl⟩

/-- Claim C3 (amended): in the absence of an applicable `__eq` metamethod,
the EQ handler computes the comparison as `rawEqSpec`: the Python equality
of the payloads when both operands are numbers (by value) or both strings,
and `false` for every other pair — including two Nils and two equal
Booleans; the next instruction is skipped (pc+1) exactly when that boolean
differs from `A != 0`. -/
theorem eq_handler_spec (tmeta : ℕ → Option Table)
    (luacall : Value → Value → Value → Except PyErr Value)
    (stack consts : List Value) (pc : ℤ) (a b c : ℕ) (va vb : Value)
    (hva : luaGetRK stack consts b = .ok va)
    (hvb : luaGetRK stack consts c = .ok vb)
    (hmeta : metaLookup tmeta "__eq" va vb = none) :
    compareStep CompareCheck.checks pyEqOp "__eq" tmeta luacall stack consts b c
      = .ok (rawEqSpec va vb) ∧
    opEQ tmeta luacall stack consts pc a b c
      = .ok (if rawEqSpec va vb ≠ decide (a ≠ 0) then pc + 1 else pc) := by
  have hcs : compareStep CompareCheck.checks pyEqOp "__eq" tmeta luacall stack consts b c
      = .ok (rawEqSpec va vb) := by
    unfold compareStep
    simp only [hva, hvb]
    unfold solveBin CompareCheck.checks rawEqSpec
    by_cases hf : ((va.is_number && vb.is_number) || (va.is_string && vb.is_string)) = true
    · simp only [hf, if_true]
      simp only [pyEqOp, Value.conv_float_to_int]
    · simp only [Bool.not_eq_true] at hf
      simp only [hf, Bool.false_eq_true, if_false, hmeta]
  refine ⟨hcs, ?_⟩
  unfold opEQ
  simp only [hcs]
  by_cases hd : rawEqSpec va vb ≠ decide (a ≠ 0)
  · rw [if_pos hd, if_pos hd]
  · rw [if_neg hd, if_neg hd]

/-- Witness for the amended C3 theorem at a concrete input: registers
`[1, 2]`, A = 0; the raw comparison is false, A != 0 is false, so there is
no skip and the pc stays 0. -/
theorem eq_handler_spec_witness :
    compareStep CompareCheck.checks pyEqOp "__eq" (fun _ => none)
        (fun _ _ _ => .ok Value.nil) [Value.int 1, Value.int 2] [] 0 1 = .ok false ∧
    opEQ (fun _ => none) (fun _ _ _ => .ok Value.nil)
        [Value.int 1, Value.int 2] [] 0 0 0 1 = .ok 0 := by
  have h := eq_handler_spec (fun _ => none) (fun _ _ _ => .ok Value.nil)
    [Value.int 1, Value.int 2] [] 0 0 0 1 (Value.int 1) (Value.int 2) rfl rfl rfl
  exact ⟨h.1, h.2⟩

theorem pyFloat_one : pyFloat "1" = some 1 := by
  rw [show pyFloat "1" = some ((1 : ℚ) * ((1 : ℕ) : ℚ)) from rfl]
  norm_num

theorem pyFloat_three_half : pyFloat "1.5" = some (3 / 2) := by
  rw [show pyFloat "1.5"
      = some ((1 : ℚ) * (((1 : ℕ) : ℚ) + ((5 : ℕ) : ℚ) / (10 : ℚ) ^ (1 : ℕ))) from rfl]
  norm_num

theorem conv_str_one : Value.conv_str_to_number (.str "1") = .ok (.int 1) := by
  unfold Value.conv_str_to_number
  simp only [pyFloat_one]
  norm_num [Value.conv_float_to_int]

theorem conv_str_three_half :
    Value.conv_str_to_number (.str "1.5") = .ok (.flt (3 / 2)) := by
  unfold Value.conv_str_to_number
  simp only [pyFloat_three_half]
  have hden : ((3 : ℚ) / 2).den = 2 := by norm_num
  simp [Value.conv_float_to_int, hden]

theorem checks_one_two :
    CheckNumber.checks (.str "1") (.int 2) = .ok (true, .int 1, .int 2) := by
  unfold CheckNumber.checks CheckNumber.check
  simp only [conv_str_one]
  rfl

theorem checks_three_half_two :
    CheckNumber.checks (.str "1.5") (.int 2) = .ok (true, .flt (3 / 2), .int 2) := by
  unfold CheckNumber.checks CheckNumber.check
  simp only [conv_str_three_half]
  rfl

theorem solveBin_of_checks_true
    {checks : Value → Value → Except PyErr (Bool × Value × Value)}
    {op : Value → Value → Except PyErr Value} {mn : String}
    {tm : ℕ → Option Table} {lc : Value → Value → Value → Except PyErr Value}
    {va vb va' vb' w : Value}
    (h1 : checks va vb = .ok (true, va', vb')) (h2 : op va' vb' = .ok w) :
    solveBin checks op mn tm lc va vb = .ok (.val w.conv_float_to_int) := by
  unfold solveBin
  simp only [h1]
  simp only [show ((true, va', vb') : Bool × Value × Value).1 = true from rfl, if_true]
  simp only [h2]

theorem arithStep_of_parts
    {checks : Value → Value → Except PyErr (Bool × Value × Value)}
    {op : Value → Value → Except PyErr Value} {mn : String}
    {tm : ℕ → Option Table} {lc : Value → Value → Value → Except PyErr Value}
    {stack consts : List Value} {idx a b : ℕ} {va vb res : Value} {stres : List Value}
    (hva : luaGetRK stack consts a = .ok va) (hvb : luaGetRK stack consts b = .ok vb)
    (hs : solveBin checks op mn tm lc va vb = .ok (.val res))
    (hset : setIdx stack idx res = .ok stres) :
    arithStep checks op mn tm lc stack consts idx a b = .ok stres := by
  unfold arithStep
  simp only [hva, hvb, hs, hset]

theorem conv_flt_three : (Value.flt ((3 : ℚ) / 2 * ((2 : ℤ) : ℚ))).conv_float_to_int
    = Value.int 3 := by
  have h3 : (3 : ℚ) / 2 * ((2 : ℤ) : ℚ) = (3 : ℚ) := by push_cast; ring
  rw [h3]
  norm_num [Value.conv_float_to_int]

theorem arith_add_one_two :
    arithStep CheckNumber.checks pyAddOp "__add" (fun _ => none)
        (fun _ _ _ => .ok Value.nil) [Value.str "1", Value.int 2] [] 0 0 1
      = .ok [Value.int 3, Value.int 2] :=
  arithStep_of_parts rfl rfl
    (solveBin_of_checks_true checks_one_two rfl) rfl

theorem arith_mul_three_half :
    arithStep CheckNumber.checks pyMulOp "__mul" (fun _ => none)
        (fun _ _ _ => .ok Value.nil) [Value.str "1.5", Value.int 2] [] 0 0 1
      = .ok [Value.int 3, Value.int 2] := by
  have hs := @solveBin_of_checks_true CheckNumber.checks pyMulOp "__mul"
    (fun _ => none) (fun _ _ _ => .ok Value.nil)
    (.str "1.5") (.int 2) (.flt (3 / 2)) (.int 2)
    (.flt ((3 : ℚ) / 2 * ((2 : ℤ) : ℚ))) checks_three_half_two rfl
  rw [conv_flt_three] at hs
  exact arithStep_of_parts rfl rfl hs rfl

theorem arith_add_x_one :
    arithStep CheckNumber.checks pyAddOp "__add" (fun _ => none)
        (fun _ _ _ => .ok Value.nil) [Value.str "x", Value.int 1] [] 0 0 1
      = .error .valueError := rfl

/-- Claim C5 (counterexample): executing MUL on string "1.5" and number 2
stores Integer(3), not Float(3.0) (the `Value` constructor canonicalizes
the integral float 3.0 to an integer), and executing ADD on string "x" and
number 1 raises ValueError (from Python `float("x")` inside the coercion),
not TypeError — both contradicting the claim as stated. -/
theorem arith_coercion_counterexample :
    arithStep CheckNumber.checks pyMulOp "__mul" (fun _ => none)
        (fun _ _ _ => .ok Value.nil) [Value.str "1.5", Value.int 2] [] 0 0 1
      = .ok [Value.int 3, Value.int 2] ∧
    Value.int 3 ≠ Value.flt 3 ∧
    arithStep CheckNumber.checks pyAddOp "__add" (fun _ => none)
        (fun _ _ _ => .ok Value.nil) [Value.str "x", Value.int 1] [] 0 0 1
      = .error .valueError ∧
    PyErr.valueError ≠ PyErr.typeError := by
  refine ⟨arith_mul_three_half, by decide, arith_add_x_one, by decide⟩

/-- Claim C5 (amended): "1" + 2 yields Integer(3); "1.5" * 2 yields
Integer(3) as well (the result 3.0 is canonicalized to an integer by the
`Value` constructor); "x" + 1 raises ValueError from the string-to-number
coercion, before any metamethod lookup. -/
theorem arith_coercion_results :
    arithStep CheckNumber.checks pyAddOp "__add" (fun _ => none)
        (fun _ _ _ => .ok Value.nil) [Value.str "1", Value.int 2] [] 0 0 1
      = .ok [Value.int 3, Value.int 2] ∧
    arithStep CheckNumber.checks pyMulOp "__mul" (fun _ => none)
        (fun _ _ _ => .ok Value.nil) [Value.str "1.5", Value.int 2] [] 0 0 1
      = .ok [Value.int 3, Value.int 2] ∧
    arithStep CheckNumber.checks pyAddOp "__add" (fun _ => none)
        (fun _ _ _ => .ok Value.nil) [Value.str "x", Value.int 1] [] 0 0 1
      = .error .valueError := by
  refine ⟨arith_add_one_two, arith_mul_three_half, arith_add_x_one⟩

/-- Claim C6 (counterexample): ADD on a table without a metatable and the
number 1 neither raises TypeError nor stores anything — `arith` completes
and returns the register stack unchanged, because `solve` returns Python
`False` and the assignment `L.stack[idx] = res` is skipped. -/
theorem arith_no_metamethod_no_error :
    arithStep CheckNumber.checks pyAddOp "__add" (fun _ => none)
        (fun _ _ _ => .ok Value.nil) [Value.table 0, Value.int 1] [] 0 0 1
      = .ok [Value.table 0, Value.int 1] := rfl

/-- Claim C6 (amended): for every binary arithmetic instruction, whenever
the two (non-string) operands are not both numbers and no metamethod is
found for either operand, the operation raises no error and performs no
store — the register stack is returned unchanged.  (The source's `arith`
tests the `solve` result for truthiness and silently skips the assignment
on `False`; no TypeError is raised.) -/
theorem arith_silent_on_failure
    (op : Value → Value → Except PyErr Value) (metaName : String)
    (tmeta : ℕ → Option Table)
    (luacall : Value → Value → Value → Except PyErr Value)
    (stack consts : List Value) (idx a b : ℕ) (va vb : Value)
    (hva : luaGetRK stack consts a = .ok va)
    (hvb : luaGetRK stack consts b = .ok vb)
    (hsa : va.is_string = false) (hsb : vb.is_string = false)
    (hnum : (va.is_number && vb.is_number) = false)
    (hmeta : metaLookup tmeta metaName va vb = none) :
    arithStep CheckNumber.checks op metaName tmeta luacall stack consts idx a b
      = .ok stack := by
  unfold arithStep
  simp only [hva, hvb]
  unfold solveBin CheckNumber.checks CheckNumber.check
  simp only [conv_str_to_number_of_not_string hsa, conv_str_to_number_of_not_string hsb]
  by_cases hna : va.is_number = true
  · have hnb : vb.is_number = false := by
      cases hvbn : vb.is_number
      · rfl
      · rw [hna, hvbn] at hnum; cases hnum
    simp only [hna, hnb, if_true, Bool.false_eq_true, if_false, hmeta]
  · simp only [Bool.not_eq_true] at hna
    simp only [hna, Bool.false_eq_true, if_false, hmeta]

/-- Witness for the amended C6 theorem: MUL on a metatable-less table and
the number 1 returns the stack unchanged. -/
theorem arith_silent_on_failure_witness :
    arithStep CheckNumber.checks pyMulOp "__mul" (fun _ => none)
        (fun _ _ _ => .ok Value.nil) [Value.table 0, Value.int 1] [] 0 0 1
      = .ok [Value.table 0, Value.int 1] :=
  arith_silent_on_failure pyMulOp "__mul" (fun _ => none)
    (fun _ _ _ => .ok Value.nil) [Value.table 0, Value.int 1] [] 0 0 1
    (Value.table 0) (Value.int 1) rfl rfl rfl rfl rfl rfl

/-- Claim C4 (code_bug evidence): `pycall` called with expected_returns −1
(a CALL with C == 0, or a TAILCALL to a native) transfers no values at all
— `range(-1)` is empty — leaving the function slot untouched even though
the native callable left one value (7) and reported one return; with a
definite expected_returns of 2 the same call transfers the value and pads
with Nil.  The claim (and the spec, matching `poscall` which does special-
case −1) says all values should be transferred when expected_returns is −1. -/
theorem pycall_transfers_nothing_on_minus_one :
    pycall [Value.func 0] 0 0 (-1) (fun _ => ([Value.int 7], 1))
      = .ok [Value.func 0] ∧
    pycall [Value.func 0, Value.nil, Value.nil] 0 0 2 (fun _ => ([Value.int 7], 1))
      = .ok [Value.int 7, Value.nil, Value.nil] := ⟨rfl, rfl⟩

/-- Claim C7 (counterexample): a chunk whose 4-byte signature is correct
but whose version byte is 0x52 (and endianness byte 1, i.e. the standard
profile otherwise) is parsed successfully — `Header.__init__` raises no
error, returning the header with version 0x52, where the claim requires a
CorruptChunk failure before any prototype is decoded. -/
theorem header_accepts_version_0x52 :
    Header.read ⟨[0x1b, 0x4c, 0x75, 0x61, 0x52, 0, 1, 4, 8, 4, 8, 0], 0⟩
      = .ok ({ signature := luaSig, version := 0x52, format := 0,
               endianness := 1, int_len := 4, size_len := 8, inst_len := 4,
               number_len := 8, number_is_int := false },
             ⟨[0x1b, 0x4c, 0x75, 0x61, 0x52, 0, 1, 4, 8, 4, 8, 0], 12⟩) := by
  rfl

/-- Claim C7 (amended): only the 4-byte signature is validated.  For every
choice of the eight profile bytes — version, format, endianness, int size,
size_t size, instruction size, number size, integral flag — a chunk with a
correct signature parses successfully and the bytes are stored verbatim in
the header, with the reader positioned at offset 12 ready to decode the
prototype; no field is compared against the supported profile. -/
theorem header_profile_unchecked (v f e il sl il2 nl fl : ℕ) :
    Header.read ⟨[0x1b, 0x4c, 0x75, 0x61, v, f, e, il, sl, il2, nl, fl], 0⟩
      = .ok ({ signature := luaSig, version := v, format := f, endianness := e,
               int_len := il, size_len := sl, inst_len := il2, number_len := nl,
               number_is_int := decide (fl ≠ 0) },
             ⟨[0x1b, 0x4c, 0x75, 0x61, v, f, e, il, sl, il2, nl, fl], 12⟩) := by
  rfl

/-- Claim C8: for a TAILCALL whose target is a Lua closure, the frame
stack keeps its depth — `call_info[-1]` is overwritten in place — the new
top frame is the target closure, and the target closure's `nrets`
(expected_returns) and `ret_idx` (return_base) are copied from the frame
being replaced; iterating this step keeps the depth constant across any
chain of tail calls. -/
theorem tailcall_preserves_depth
    (pyB : VMState → ℕ → ℕ → Except PyErr VMState) (s : VMState)
    (a b fid curId : ℕ) (tgt cur : LClosureData) (s' : VMState)
    (hva : getIdx s.stack a = .ok (Value.func fid))
    (hlua : s.heap fid = .lua tgt)
    (hcur : s.call_info.getLast? = some curId)
    (hcl : s.heap curId = .lua cur)
    (hrun : opTAILCALL pyB s a b = .ok s') :
    s'.call_info.length = s.call_info.length ∧
    s'.call_info.getLast? = some fid ∧
    ∃ tgt2 : LClosureData, s'.heap fid = .lua tgt2 ∧
      tgt2.nrets = cur.nrets ∧ tgt2.ret_idx = cur.ret_idx := by
  unfold opTAILCALL at hrun
  simp only [hva, Value.is_function, Bool.not_true, Bool.false_eq_true, if_false,
    hlua, lastFrameId, hcur, asLua, hcl] at hrun
  cases hd : distArgs s.stack a tgt.func.numparams 0
      (if b > 0 then b - 1 else s.stack.length - a - 1)
      (List.replicate tgt.func.maxstacksize Value.nil) [] with
  | error e =>
    rw [hd] at hrun
    exact absurd hrun (by simp)
  | ok r =>
    rw [hd] at hrun
    cases hrun
    have hne : s.call_info ≠ [] := by
      intro hnil
      rw [hnil] at hcur
      cases hcur
    refine ⟨?_, ?_, ?_⟩
    · simp only [List.length_append, List.length_dropLast, List.length_singleton]
      have : 1 ≤ s.call_info.length := by
        cases hci : s.call_info with
        | nil => exact absurd hci hne
        | cons x xs => simp
      omega
    · exact List.getLast?_concat _
    · refine ⟨LClosureData.mk r.1 tgt.upvalues r.2 tgt.func cur.nrets cur.ret_idx 0,
        ?_, rfl, rfl⟩
      simp

/-- Auxiliary prototype for the concrete TAILCALL witness state. -/
def c8proto : Proto := ⟨1, 0⟩

/-- Target closure of the TAILCALL witness. -/
def c8tgt : LClosureData := ⟨[Value.nil], [], [], c8proto, 0, 0, 4⟩

/-- Current (replaced) frame of the TAILCALL witness, with distinctive
nrets = 5 and ret_idx = 9. -/
def c8cur : LClosureData := ⟨[Value.func 1], [], [], c8proto, 5, 9, 3⟩

/-- State for the TAILCALL witness: one active frame (id 0), target id 1. -/
def c8state : VMState :=
  ⟨fun i => if i = 1 then .lua c8tgt else .lua c8cur, [0], c8cur.stack, c8proto⟩

/-- Witness for the C8 theorem at a concrete state: the frame depth stays
1, the top frame becomes closure 1, and it reuses nrets 5 and ret_idx 9
from the replaced frame. -/
theorem tailcall_preserves_depth_witness :
    (∃ s', opTAILCALL (fun s _ _ => .ok s) c8state 0 1 = .ok s' ∧
      s'.call_info.length = c8state.call_info.length ∧
      s'.call_info.getLast? = some 1 ∧
      ∃ tgt2 : LClosureData, s'.heap 1 = .lua tgt2 ∧
        tgt2.nrets = c8cur.nrets ∧ tgt2.ret_idx = c8cur.ret_idx) :=
  ⟨_, rfl, tailcall_preserves_depth (fun s _ _ => .ok s) c8state 0 1 1 0
    c8tgt c8cur _ rfl rfl rfl rfl rfl⟩

/-- Claim C10: `precall` rebuilds the register stack (a fresh Nil-filled
window of `maxstacksize` slots, into which the arguments are then copied)
and resets the pc to 0 on the closure object itself, before appending the
frame.  Frames are references to closure objects (heap ids), so when the
called closure is already an active frame, the earlier activation — still
present in `call_info.dropLast` under the same id — thereafter refers to
the very same updated object: its view has pc 0 and the new stack (all Nil
when there are no arguments).  Two simultaneous activations of one closure
are never independent. -/
theorem precall_rebinds_shared_closure
    (s : VMState) (cid func_idx nargs : ℕ) (nrets : ℤ) (c : LClosureData)
    (s' : VMState)
    (hc : s.heap cid = .lua c)
    (hactive : cid ∈ s.call_info)
    (hrun : precall s cid func_idx nargs nrets = .ok s') :
    s'.call_info = s.call_info ++ [cid] ∧
    cid ∈ s'.call_info.dropLast ∧
    ∃ st va, s'.heap cid
        = .lua (LClosureData.mk st c.upvalues va c.func nrets func_idx 0) ∧
      st.length = c.func.maxstacksize ∧ s'.stack = st ∧
      (nargs = 0 → st = List.replicate c.func.maxstacksize Value.nil ∧ va = []) := by
  unfold precall at hrun
  simp only [asLua, hc] at hrun
  cases hd : distArgs s.stack func_idx c.func.numparams 0 nargs
      (List.replicate c.func.maxstacksize Value.nil) [] with
  | error e =>
    rw [hd] at hrun
    exact Except.noConfusion hrun
  | ok r =>
    rw [hd] at hrun
    cases hrun
    refine ⟨rfl, ?_, r.1, r.2, ?_, ?_, rfl, ?_⟩
    · rw [List.dropLast_concat]
      exact hactive
    · simp
    · have := distArgs_length s.stack func_idx c.func.numparams nargs 0
        (List.replicate c.func.maxstacksize Value.nil) [] r.1 r.2
      rw [this (by rw [← hd])]
      exact List.length_replicate _ _
    · intro h0
      subst h0
      rw [distArgs_zero] at hd
      cases hd
      exact ⟨rfl, rfl⟩

/-- Prototype for the concrete precall witness. -/
def c10proto : Proto := ⟨2, 0⟩

/-- The closure object of the precall witness, with a stale pc of 7 and a
stale register stack. -/
def c10c : LClosureData := ⟨[Value.int 42, Value.int 43], [], [], c10proto, 3, 4, 7⟩

/-- State for the precall witness: closure id 3 is already the active
frame when it is called again. -/
def c10state : VMState := ⟨fun _ => .lua c10c, [3], [], c10proto⟩

/-- Witness for the C10 theorem at a concrete state: calling closure 3,
which is already active, resets its heap record to a Nil-filled stack of
length 2 and pc 0, and the earlier activation (still frame 0, same id 3)
refers to that updated record. -/
theorem precall_rebinds_shared_closure_witness :
    (3 ∈ c10state.call_info) ∧
    (∃ s', precall c10state 3 0 0 (-1) = .ok s' ∧
      s'.call_info = c10state.call_info ++ [3] ∧
      3 ∈ s'.call_info.dropLast ∧
      ∃ st va, s'.heap 3
          = .lua (LClosureData.mk st c10c.upvalues va c10c.func (-1) 0 0) ∧
        st.length = c10c.func.maxstacksize ∧ s'.stack = st ∧
        (0 = 0 → st = List.replicate c10c.func.maxstacksize Value.nil ∧ va = [])) :=
  ⟨by decide,
   ⟨_, rfl, precall_rebinds_shared_closure c10state 3 0 0 (-1) c10c _
     rfl (by decide) rfl⟩⟩

/-- Claim C9: after any finite sequence of `set` operations on a fresh
table (arbitrary key kinds, Nil and non-Nil values), the reported length
n = #t is a boundary: the array part contains no Nil (so `t[n]` is
non-nil when n > 0), the hash part does not contain the integer key n+1,
and `t[n+1]` reads as absent. -/
theorem table_len_is_boundary (ops : List (PyKey × Value)) :
    (∀ v ∈ (applyOps ops).list, v ≠ Value.nil) ∧
    mapGet (applyOps ops).map (.kint (((applyOps ops).len : ℤ) + 1)) = none ∧
    ((applyOps ops).len = 0 ∨
      ∃ v, (applyOps ops).get (.pint ((applyOps ops).len : ℤ)) = some v ∧
        v ≠ Value.nil) ∧
    (applyOps ops).get (.pint (((applyOps ops).len : ℤ) + 1)) = none := by
  obtain ⟨hl, hb, hv, hn⟩ := tableInv_applyOps ops
  have hlen : (applyOps ops).len = (applyOps ops).list.length := rfl
  have hmap : mapGet (applyOps ops).map (.kint (((applyOps ops).len : ℤ) + 1))
      = none := by
    cases hg : mapGet (applyOps ops).map (.kint (((applyOps ops).len : ℤ) + 1)) with
    | none => rfl
    | some w =>
      rcases hb _ _ hg with h' | h' <;> rw [hlen] at h' <;> omega
  refine ⟨hl, hmap, ?_, ?_⟩
  · by_cases h0 : (applyOps ops).len = 0
    · exact Or.inl h0
    · right
      have h1 : 1 ≤ (applyOps ops).list.length := by
        rw [hlen] at h0
        omega
      unfold Table.get
      simp only [PyKey.intKey]
      rw [if_pos ⟨by rw [hlen]; omega, by rw [hlen]⟩]
      have htn : (((applyOps ops).len : ℤ) - 1).toNat = (applyOps ops).list.length - 1 := by
        rw [hlen]
        omega
      rw [htn]
      have hlt : (applyOps ops).list.length - 1 < (applyOps ops).list.length := by
        omega
      rw [List.get?_eq_get hlt]
      exact ⟨_, rfl, hl _ (List.get_mem _ _ _)⟩
  · unfold Table.get
    simp only [PyKey.intKey]
    rw [if_neg ?_]
    · exact hmap
    · intro hcontra
      rw [hlen] at hcontra
      omega
